import Mathlib

/-!
Shallow embedding of the elevator simulator core (`src/App.tsx`).

The source is a React component.  Its core state lives in `useState` cells
(`currentFloor`, `targetFloor`, `isMoving`, `isDoorOpen`, `selectedFloors`,
`direction`, `callDirection`) and two refs (`elevatorQueue`, `isProcessing`).
The trip scheduler `processQueue` is an `async` function: the running instance
closes over the values of `currentFloor` and `isDoorOpen` that were current at
the render from which it was invoked, and keeps those captured values for its
whole run (the `useCallback` dependency array refreshes the *next* closure, not
the one already running).  The embedding therefore stores the captured pair in
the scheduler continuation `Proc.running capFloor capDoor phase`.

Execution is single-threaded JavaScript: external handlers can only run while
`processQueue` is suspended at an `await delay(...)`.  So the model's states
are the states at await points, and one `Act.timer` step runs the synchronous
code from one await point to the next.  External handlers read the
authoritative (latest) state, as the freshly rendered closures do.

Presentation-only state (`currentView`, `displayFloor`, `outsideFloor`,
`audioLoaded`) is omitted; `displayFloor` is always written together with
`currentFloor`, and `outsideFloor` is an opaque input to the hall-call handler,
so `handleCallElevator` takes the caller floor as a parameter.  Audio playback
is modelled as the core event stream: `announceDoor`/`announceDirection`/
`announceArrival`/`setCurrentFloor`-in-the-move-loop append the corresponding
discrete events to a trace, tagged with the trip number that emitted them
(manual door-button announcements are tagged `manual`).  The hall-call
handler's `announceDirection(dir)` call is display/audio-only and carries no
floor information; it is not part of the core event stream and is not traced.
-/

/-- The fixed floor registry, `FLOORS` in the source:
`['B2','B1','F1',...,'F10']`.  Floor identifiers are opaque tokens. -/
inductive Floor
  | B2 | B1 | F1 | F2 | F3 | F4 | F5 | F6 | F7 | F8 | F9 | F10
deriving DecidableEq, Repr, Fintype

/-- `const FLOORS = ['B2', 'B1', 'F1', ..., 'F10']`. -/
def FLOORS : List Floor :=
  [.B2, .B1, .F1, .F2, .F3, .F4, .F5, .F6, .F7, .F8, .F9, .F10]

/-- `const getFloorIndex = (floor) => FLOORS.indexOf(floor)`.
Every `Floor` occurs in `FLOORS`, so the JS missing-element result (-1)
cannot arise and `Nat` indices are faithful. -/
def getFloorIndex (f : Floor) : Nat := FLOORS.indexOf f

/-- JavaScript `Array.prototype.slice(s, e)` for in-range natural indices:
elements from index `s` (inclusive) to `e` (exclusive). -/
def jsSlice (l : List Floor) (s e : Nat) : List Floor := (l.drop s).take (e - s)

/-- Travel direction, the `'up' | 'down'` strings of the source. -/
inductive Dir
  | up | down
deriving DecidableEq, Repr, Fintype

/-- The discrete cue events the core emits at phase boundaries. -/
inductive Ev
  | door_closed
  | door_opened
  | direction_changed (d : Dir)
  | floor_passed (f : Floor)
  | floor_arrived (f : Floor)
deriving DecidableEq, Repr

/-- A trace entry: an event emitted by trip number `n` of the scheduler,
or by a manual door-button press. -/
inductive TraceEntry
  | sched (n : Nat) (e : Ev)
  | manual (e : Ev)
deriving DecidableEq, Repr

/-- The await points of one `processQueue` trip, each holding the trip's
dequeued target (and, while moving, the floors still to be passed). -/
inductive Phase
  | closeWait (target : Floor)
  | dirWait (target : Floor)
  | moveStep (target : Floor) (passes : List Floor)
  | arriveWait (target : Floor)
  | settleWait (target : Floor)
deriving DecidableEq, Repr

/-- The scheduler continuation.  `idle` is `isProcessing.current == false`;
`running capFloor capDoor phase` is a suspended `processQueue` instance whose
closure captured `currentFloor = capFloor` and `isDoorOpen = capDoor` when it
was invoked. -/
inductive Proc
  | idle
  | running (capFloor : Floor) (capDoor : Bool) (phase : Phase)
deriving DecidableEq, Repr

/-- The core state of the component at an await point. -/
structure AppState where
  currentFloor : Floor
  targetFloor : Option Floor
  isMoving : Bool
  isDoorOpen : Bool
  selectedFloors : List Floor
  direction : Option Dir
  callDirection : Option Dir
  elevatorQueue : List Floor
  proc : Proc
  tripCount : Nat
  trace : List TraceEntry
deriving DecidableEq, Repr

/-- Initial state: `currentFloor = 'F1'`, door open, idle, everything empty. -/
def initState : AppState :=
  { currentFloor := .F1
    targetFloor := none
    isMoving := false
    isDoorOpen := true
    selectedFloors := []
    direction := none
    callDirection := none
    elevatorQueue := []
    proc := .idle
    tripCount := 0
    trace := [] }

/-- Lines 129–144 of the source, as a function of the two endpoints:
```
const currentIdx = getFloorIndex(currentFloor)
const targetIdx  = getFloorIndex(target)
const dir = targetIdx > currentIdx ? 'up' : 'down'
const floorsToPass = dir === 'up'
  ? FLOORS.slice(currentIdx + 1, targetIdx + 1)
  : FLOORS.slice(targetIdx, currentIdx).reverse()
```
Inside `processQueue` the first argument is the *captured* `currentFloor`. -/
def plan (current target : Floor) : Dir × List Floor :=
  let currentIdx := getFloorIndex current
  let targetIdx := getFloorIndex target
  let dir : Dir := if currentIdx < targetIdx then .up else .down
  let floorsToPass :=
    if dir = .up then jsSlice FLOORS (currentIdx + 1) (targetIdx + 1)
    else (jsSlice FLOORS targetIdx currentIdx).reverse
  (dir, floorsToPass)

/-- Modelled from the spec (§4.4 Travel Planner), for comparison with `plan`:
direction is Up iff `index(to) > index(from)`, else Down; the sequence is
every floor with index strictly between the endpoints, inclusive of the
target, in travel order. -/
def planSpec (a b : Floor) : Dir × List Floor :=
  let dir : Dir := if getFloorIndex b > getFloorIndex a then .up else .down
  let seq :=
    if dir = .up then
      FLOORS.filter fun f =>
        getFloorIndex a < getFloorIndex f ∧ getFloorIndex f ≤ getFloorIndex b
    else
      (FLOORS.filter fun f =>
        getFloorIndex b ≤ getFloorIndex f ∧ getFloorIndex f < getFloorIndex a).reverse
  (dir, seq)

/-- Source lines 128–136 (run after the door-close await, or directly when the
captured door flag is false): determine the direction from the *captured*
current floor, set it, announce it, and suspend at `await delay(1000)`. -/
def announceDirStep (capFloor : Floor) (capDoor : Bool) (target : Floor)
    (s : AppState) : AppState :=
  let dir := (plan capFloor target).1
  { s with direction := some dir
           trace := s.trace ++ [.sched s.tripCount (.direction_changed dir)]
           proc := .running capFloor capDoor (.dirWait target) }

/-- Source lines 152–157: `setIsMoving(false); setDirection(null);
announceArrival(target); await delay(500)`. -/
def arriveStep (capFloor : Floor) (capDoor : Bool) (target : Floor)
    (s : AppState) : AppState :=
  { s with isMoving := false
           direction := none
           trace := s.trace ++ [.sched s.tripCount (.floor_arrived target)]
           proc := .running capFloor capDoor (.arriveWait target) }

/-- Source lines 139–144 plus loop entry (run after the direction await):
`setIsMoving(true)`, compute `floorsToPass` from the captured floor, and
either suspend before the first `setCurrentFloor` or — when `floorsToPass`
is empty — fall through synchronously to the arrival block. -/
def startMoveStep (capFloor : Floor) (capDoor : Bool) (target : Floor)
    (s : AppState) : AppState :=
  let passes := (plan capFloor target).2
  let s' := { s with isMoving := true }
  match passes with
  | [] => arriveStep capFloor capDoor target s'
  | ps => { s' with proc := .running capFloor capDoor (.moveStep target ps) }

/-- Source lines 118–126: the synchronous block from `shift()` to the first
await of a trip.  `setTargetFloor(target)`; the trip counter ticks; then
`if (isDoorOpen) { setIsDoorOpen(false); announceDoor('close'); await ... }`
using the *captured* door flag, else fall through to the direction block. -/
def startTrip (capFloor : Floor) (capDoor : Bool) (target : Floor)
    (s : AppState) : AppState :=
  let s₁ := { s with targetFloor := some target, tripCount := s.tripCount + 1 }
  if capDoor then
    { s₁ with isDoorOpen := false
              trace := s₁.trace ++ [.sched s₁.tripCount .door_closed]
              proc := .running capFloor capDoor (.closeWait target) }
  else
    announceDirStep capFloor capDoor target s₁

/-- The head of the `while` loop (lines 117–118) together with the exit code
(lines 173–174): dequeue the next target and start its trip, or set
`isProcessing.current = false; setTargetFloor(null)` when the queue is empty. -/
def loopStep (capFloor : Floor) (capDoor : Bool) (s : AppState) : AppState :=
  match s.elevatorQueue with
  | [] => { s with proc := .idle, targetFloor := none }
  | t :: rest => startTrip capFloor capDoor t { s with elevatorQueue := rest }

/-- Invoking `processQueue()` (lines 112–115): return immediately when
`isProcessing.current || elevatorQueue.current.length === 0`; otherwise set
the flag, capture `(currentFloor, isDoorOpen)` from the invoking render, and
run to the first await. -/
def invokeProcessQueue (s : AppState) : AppState :=
  match s.proc with
  | .running _ _ _ => s
  | .idle =>
    if s.elevatorQueue = [] then s
    else loopStep s.currentFloor s.isDoorOpen s

/-- `handleFloorSelect` (lines 87–102): the same-floor/idle/door-open filter,
the `selectedFloors` dedup, then append to the queue and kick the scheduler
if it is not processing. -/
def handleFloorSelect (floor : Floor) (s : AppState) : AppState :=
  if floor = s.currentFloor ∧ s.isMoving = false ∧ s.isDoorOpen = true then s
  else if floor ∈ s.selectedFloors then s
  else
    invokeProcessQueue
      { s with selectedFloors := s.selectedFloors ++ [floor]
               elevatorQueue := s.elevatorQueue ++ [floor] }

/-- `handleCallElevator` (lines 178–189) with the caller's floor
(`outsideFloor`) passed explicitly: record the call direction, and unless the
cabin is at the caller's floor and not moving, prepend the caller's floor to
the queue and kick the scheduler if it is not processing. -/
def handleCallElevator (caller : Floor) (d : Dir) (s : AppState) : AppState :=
  let s₁ := { s with callDirection := some d }
  if s₁.currentFloor ≠ caller ∨ s₁.isMoving = true then
    invokeProcessQueue { s₁ with elevatorQueue := caller :: s₁.elevatorQueue }
  else s₁

/-- `handleDoorOpen` (lines 209–215): a no-op while moving, else open the
door and announce it. -/
def handleDoorOpen (s : AppState) : AppState :=
  if s.isMoving = false then
    { s with isDoorOpen := true, trace := s.trace ++ [.manual .door_opened] }
  else s

/-- `handleDoorClose` (lines 217–223): a no-op while moving, else close the
door and announce it. -/
def handleDoorClose (s : AppState) : AppState :=
  if s.isMoving = false then
    { s with isDoorOpen := false, trace := s.trace ++ [.manual .door_closed] }
  else s

/-- One scheduler resumption: run the suspended `processQueue` instance from
its current await point to the next one (or to termination). -/
def schedTick (s : AppState) : AppState :=
  match s.proc with
  | .idle => s
  | .running capFloor capDoor ph =>
    match ph with
    | .closeWait t => announceDirStep capFloor capDoor t s
    | .dirWait t => startMoveStep capFloor capDoor t s
    | .moveStep t ps =>
      match ps with
      | [] => arriveStep capFloor capDoor t s
      | [f] =>
        arriveStep capFloor capDoor t
          { s with currentFloor := f
                   trace := s.trace ++ [.sched s.tripCount (.floor_passed f)] }
      | f :: rest =>
        { s with currentFloor := f
                 trace := s.trace ++ [.sched s.tripCount (.floor_passed f)]
                 proc := .running capFloor capDoor (.moveStep t rest) }
    | .arriveWait t =>
      { s with isDoorOpen := true
               trace := s.trace ++ [.sched s.tripCount .door_opened]
               selectedFloors := s.selectedFloors.erase t
               proc := .running capFloor capDoor (.settleWait t) }
    | .settleWait _ => loopStep capFloor capDoor s

/-- External stimuli: a cabin button, a hall call (with the caller's floor),
the two door buttons, and the elapse of the timer the scheduler is awaiting. -/
inductive Act
  | select (f : Floor)
  | call (f : Floor) (d : Dir)
  | doorOpenBtn
  | doorCloseBtn
  | timer
deriving DecidableEq, Repr

/-- The step function of the whole component. -/
def step (s : AppState) : Act → AppState
  | .select f => handleFloorSelect f s
  | .call f d => handleCallElevator f d s
  | .doorOpenBtn => handleDoorOpen s
  | .doorCloseBtn => handleDoorClose s
  | .timer => schedTick s

/-- The state after a sequence of stimuli from the initial state. -/
def run (es : List Act) : AppState := es.foldl step initState

/-! ### Derived classifiers and invariants -/

/-- The scheduler phases in which `isMoving` is `true`: exactly the window
between `setIsMoving(true)` and the arrival block. -/
def procMoving : Proc → Bool
  | .running _ _ (.moveStep _ _) => true
  | _ => false

/-- The scheduler phases in which `direction` holds a value: from the
direction announcement to the arrival block. -/
def procDirSome : Proc → Bool
  | .running _ _ (.dirWait _) => true
  | .running _ _ (.moveStep _ _) => true
  | _ => false

/-- The trip numbers of the scheduler-emitted events of a trace, in order;
manual door events carry no trip number and are skipped. -/
def tripIds (tr : List TraceEntry) : List Nat :=
  tr.filterMap fun e =>
    match e with
    | .sched n _ => some n
    | .manual _ => none

/-- The target of the trip currently being serviced: the floor dequeued at
trip start, up to (and including) the door-open step that clears it from the
selected set.  During `settleWait` the service of the target is complete. -/
def inflight : Proc → Option Floor
  | .running _ _ (.closeWait t) => some t
  | .running _ _ (.dirWait t) => some t
  | .running _ _ (.moveStep t _) => some t
  | .running _ _ (.arriveWait t) => some t
  | _ => none

/-- Well-formedness of a trace relative to the trip counter: trip numbers
appear in non-decreasing order and never exceed the counter. -/
def TraceOK (tr : List TraceEntry) (c : Nat) : Prop :=
  List.Chain' (· ≤ ·) (tripIds tr) ∧ ∀ k ∈ tripIds tr, k ≤ c

/-- The inductive invariant relating the mutable flags to the scheduler
continuation, plus trace well-formedness. -/
def GlobalInv (s : AppState) : Prop :=
  s.isMoving = procMoving s.proc ∧
  s.direction.isSome = procDirSome s.proc ∧
  TraceOK s.trace s.tripCount

/-- The inductive invariant for queue/selected-set bookkeeping, which holds
along call-free runs: the queue has no duplicates, every queued floor has an
illuminated button, and the floor being serviced is still illuminated but no
longer queued. -/
def SelInv (s : AppState) : Prop :=
  s.elevatorQueue.Nodup ∧
  (∀ f ∈ s.elevatorQueue, f ∈ s.selectedFloors) ∧
  (∀ t, inflight s.proc = some t →
    t ∈ s.selectedFloors ∧ t ∉ s.elevatorQueue)

lemma tripIds_append_sched (tr : List TraceEntry) (n : Nat) (e : Ev) :
    tripIds (tr ++ [.sched n e]) = tripIds tr ++ [n] := by
  simp [tripIds]

lemma tripIds_append_manual (tr : List TraceEntry) (e : Ev) :
    tripIds (tr ++ [.manual e]) = tripIds tr := by
  simp [tripIds]

lemma chain'_le_append_last {l : List Nat} {k : Nat}
    (hc : List.Chain' (· ≤ ·) l) (hb : ∀ x ∈ l, x ≤ k) :
    List.Chain' (· ≤ ·) (l ++ [k]) := by
  rw [List.chain'_append]
  refine ⟨hc, List.chain'_singleton k, ?_⟩
  intro x hx y hy
  simp only [List.head?_cons, Option.mem_def, Option.some.injEq] at hy
  subst hy
  rcases List.mem_getLast?_eq_getLast hx with ⟨h, rfl⟩
  exact hb _ (List.getLast_mem h)

lemma traceOK_mono {tr : List TraceEntry} {c c' : Nat}
    (h : TraceOK tr c) (hcc : c ≤ c') : TraceOK tr c' :=
  ⟨h.1, fun k hk => le_trans (h.2 k hk) hcc⟩

lemma traceOK_append_sched {tr : List TraceEntry} {c : Nat} (n : Nat) (e : Ev)
    (h : TraceOK tr c) (hcn : c ≤ n) : TraceOK (tr ++ [.sched n e]) n := by
  constructor
  · rw [tripIds_append_sched]
    exact chain'_le_append_last h.1 fun x hx => le_trans (h.2 x hx) hcn
  · rw [tripIds_append_sched]
    intro k hk
    rcases List.mem_append.mp hk with hk | hk
    · exact le_trans (h.2 k hk) hcn
    · simp only [List.mem_singleton] at hk
      omega

lemma traceOK_append_manual {tr : List TraceEntry} {c : Nat} (e : Ev)
    (h : TraceOK tr c) : TraceOK (tr ++ [.manual e]) c := by
  constructor
  · rw [tripIds_append_manual]; exact h.1
  · rw [tripIds_append_manual]; exact h.2


lemma globalInv_announceDirStep (capF : Floor) (capD : Bool) (t : Floor)
    (s : AppState) (hm : s.isMoving = false) (hT : TraceOK s.trace s.tripCount) :
    GlobalInv (announceDirStep capF capD t s) := by
  refine ⟨?_, ?_, ?_⟩
  · simpa [announceDirStep, procMoving] using hm
  · simp [announceDirStep, procDirSome]
  · simpa [announceDirStep] using traceOK_append_sched _ _ hT le_rfl

lemma globalInv_arriveStep (capF : Floor) (capD : Bool) (t : Floor)
    (s : AppState) (hT : TraceOK s.trace s.tripCount) :
    GlobalInv (arriveStep capF capD t s) := by
  refine ⟨?_, ?_, ?_⟩
  · simp [arriveStep, procMoving]
  · simp [arriveStep, procDirSome]
  · simpa [arriveStep] using traceOK_append_sched _ _ hT le_rfl

lemma globalInv_startMoveStep (capF : Floor) (capD : Bool) (t : Floor)
    (s : AppState) (hd : s.direction.isSome = true)
    (hT : TraceOK s.trace s.tripCount) :
    GlobalInv (startMoveStep capF capD t s) := by
  simp only [startMoveStep]
  split
  · exact globalInv_arriveStep capF capD t _ hT
  · refine ⟨?_, ?_, ?_⟩
    · simp [procMoving]
    · simpa [procDirSome] using hd
    · exact hT

lemma globalInv_startTrip (capF : Floor) (capD : Bool) (t : Floor)
    (s : AppState) (hm : s.isMoving = false) (hd : s.direction.isSome = false)
    (hT : TraceOK s.trace s.tripCount) :
    GlobalInv (startTrip capF capD t s) := by
  simp only [startTrip]
  split
  · refine ⟨?_, ?_, ?_⟩
    · simpa [procMoving] using hm
    · simpa [procDirSome] using hd
    · simpa using traceOK_append_sched (s.tripCount + 1) _
        (traceOK_mono hT (Nat.le_succ _)) le_rfl
  · exact globalInv_announceDirStep capF capD t _ hm
      (traceOK_mono hT (Nat.le_succ _))

lemma globalInv_loopStep (capF : Floor) (capD : Bool) (s : AppState)
    (hm : s.isMoving = false) (hd : s.direction.isSome = false)
    (hT : TraceOK s.trace s.tripCount) :
    GlobalInv (loopStep capF capD s) := by
  simp only [loopStep]
  split
  · exact ⟨by simpa [procMoving] using hm, by simpa [procDirSome] using hd, hT⟩
  · exact globalInv_startTrip capF capD _ _ hm hd hT

lemma globalInv_invoke (s : AppState) (h : GlobalInv s) :
    GlobalInv (invokeProcessQueue s) := by
  rcases h with ⟨hm, hd, hT⟩
  unfold invokeProcessQueue
  cases hp : s.proc with
  | running capF capD ph => exact ⟨hm, hd, hT⟩
  | idle =>
    have hm' : s.isMoving = false := by rw [hp] at hm; simpa [procMoving] using hm
    have hd' : s.direction.isSome = false := by
      rw [hp] at hd; simpa [procDirSome] using hd
    by_cases hq : s.elevatorQueue = []
    · simp only [if_pos hq]
      exact ⟨hm, hd, hT⟩
    · simp only [if_neg hq]
      exact globalInv_loopStep _ _ _ hm' hd' hT

lemma globalInv_step (s : AppState) (a : Act) (h : GlobalInv s) :
    GlobalInv (step s a) := by
  obtain ⟨hm, hd, hT⟩ := h
  cases a with
  | select f =>
    show GlobalInv (handleFloorSelect f s)
    unfold handleFloorSelect
    split
    · exact ⟨hm, hd, hT⟩
    · split
      · exact ⟨hm, hd, hT⟩
      · exact globalInv_invoke _ ⟨hm, hd, hT⟩
  | call f d =>
    show GlobalInv (handleCallElevator f d s)
    simp only [handleCallElevator]
    split
    · exact globalInv_invoke _ ⟨hm, hd, hT⟩
    · exact ⟨hm, hd, hT⟩
  | doorOpenBtn =>
    show GlobalInv (handleDoorOpen s)
    unfold handleDoorOpen
    split
    · exact ⟨hm, hd, traceOK_append_manual _ hT⟩
    · exact ⟨hm, hd, hT⟩
  | doorCloseBtn =>
    show GlobalInv (handleDoorClose s)
    unfold handleDoorClose
    split
    · exact ⟨hm, hd, traceOK_append_manual _ hT⟩
    · exact ⟨hm, hd, hT⟩
  | timer =>
    show GlobalInv (schedTick s)
    unfold schedTick
    cases hp : s.proc with
    | idle => exact ⟨hm, hd, hT⟩
    | running capF capD ph =>
      rw [hp] at hm hd
      cases ph with
      | closeWait t =>
        exact globalInv_announceDirStep capF capD t s
          (by simpa [procMoving] using hm) hT
      | dirWait t =>
        exact globalInv_startMoveStep capF capD t s
          (by simpa [procDirSome] using hd) hT
      | moveStep t ps =>
        match ps with
        | [] => exact globalInv_arriveStep capF capD t s hT
        | [f] =>
          exact globalInv_arriveStep capF capD t _
            (traceOK_append_sched _ _ hT le_rfl)
        | f :: g :: rest =>
          refine ⟨?_, ?_, ?_⟩
          · simpa [procMoving] using hm
          · simpa [procDirSome] using hd
          · simpa using traceOK_append_sched _ _ hT le_rfl
      | arriveWait t =>
        refine ⟨?_, ?_, ?_⟩
        · simpa [procMoving] using hm
        · simpa [procDirSome] using hd
        · simpa using traceOK_append_sched _ _ hT le_rfl
      | settleWait t =>
        exact globalInv_loopStep capF capD s
          (by simpa [procMoving] using hm) (by simpa [procDirSome] using hd) hT

lemma globalInv_run (es : List Act) : GlobalInv (run es) := by
  suffices h : ∀ s, GlobalInv s → GlobalInv (es.foldl step s) from
    h initState ⟨rfl, rfl, List.chain'_nil, by simp [tripIds, initState]⟩
  induction es with
  | nil => exact fun s hs => hs
  | cons a as ih => exact fun s hs => ih _ (globalInv_step s a hs)

/-- Acts that are hall calls (`handleCallElevator`), which bypass the
`selectedFloors` dedup check. -/
def isCallAct : Act → Bool
  | .call _ _ => true
  | _ => false

lemma selInv_announceDirStep (capF : Floor) (capD : Bool) (t : Floor)
    (s : AppState) (hnd : s.elevatorQueue.Nodup)
    (hsub : ∀ f ∈ s.elevatorQueue, f ∈ s.selectedFloors)
    (ht : t ∈ s.selectedFloors ∧ t ∉ s.elevatorQueue) :
    SelInv (announceDirStep capF capD t s) := by
  refine ⟨hnd, hsub, ?_⟩
  intro t' ht'
  simp only [announceDirStep, inflight] at ht' ⊢
  cases ht'
  exact ht

lemma selInv_startTrip (capF : Floor) (capD : Bool) (t : Floor)
    (s : AppState) (hnd : s.elevatorQueue.Nodup)
    (hsub : ∀ f ∈ s.elevatorQueue, f ∈ s.selectedFloors)
    (ht : t ∈ s.selectedFloors ∧ t ∉ s.elevatorQueue) :
    SelInv (startTrip capF capD t s) := by
  simp only [startTrip]
  split
  · refine ⟨hnd, hsub, ?_⟩
    intro t' ht'
    simp only [inflight] at ht'
    cases ht'
    exact ht
  · exact selInv_announceDirStep capF capD t _ hnd hsub ht

lemma selInv_loopStep (capF : Floor) (capD : Bool) (s : AppState)
    (hnd : s.elevatorQueue.Nodup)
    (hsub : ∀ f ∈ s.elevatorQueue, f ∈ s.selectedFloors) :
    SelInv (loopStep capF capD s) := by
  cases hq : s.elevatorQueue with
  | nil =>
    simp only [loopStep, hq]
    refine ⟨by simp, by simp, ?_⟩
    intro t' ht'
    simp [inflight] at ht'
  | cons t rest =>
    simp only [loopStep, hq]
    have hnd' := hq ▸ hnd
    rw [List.nodup_cons] at hnd'
    refine selInv_startTrip capF capD t _ hnd'.2 ?_ ⟨?_, hnd'.1⟩
    · intro f hf
      exact hsub f (hq ▸ List.mem_cons_of_mem t hf)
    · exact hsub t (hq ▸ List.mem_cons_self t rest)

lemma selInv_invoke (s : AppState) (h : SelInv s) :
    SelInv (invokeProcessQueue s) := by
  obtain ⟨hnd, hsub, hin⟩ := h
  unfold invokeProcessQueue
  cases hp : s.proc with
  | running capF capD ph => exact ⟨hnd, hsub, hin⟩
  | idle =>
    by_cases hq : s.elevatorQueue = []
    · simp only [if_pos hq]
      exact ⟨hnd, hsub, hin⟩
    · simp only [if_neg hq]
      exact selInv_loopStep _ _ _ hnd hsub

lemma selInv_step (s : AppState) (a : Act) (ha : isCallAct a = false)
    (h : SelInv s) : SelInv (step s a) := by
  obtain ⟨hnd, hsub, hin⟩ := h
  cases a with
  | call f d => simp [isCallAct] at ha
  | doorOpenBtn =>
    show SelInv (handleDoorOpen s)
    unfold handleDoorOpen
    split
    · exact ⟨hnd, hsub, hin⟩
    · exact ⟨hnd, hsub, hin⟩
  | doorCloseBtn =>
    show SelInv (handleDoorClose s)
    unfold handleDoorClose
    split
    · exact ⟨hnd, hsub, hin⟩
    · exact ⟨hnd, hsub, hin⟩
  | select f =>
    show SelInv (handleFloorSelect f s)
    unfold handleFloorSelect
    split
    · exact ⟨hnd, hsub, hin⟩
    · split
      · exact ⟨hnd, hsub, hin⟩
      · next hmem =>
        apply selInv_invoke
        refine ⟨?_, ?_, ?_⟩
        · rw [List.nodup_append]
          exact ⟨hnd, List.nodup_singleton f, by
            intro x hx hxf
            rw [List.mem_singleton] at hxf
            exact hmem (hxf ▸ hsub x hx)⟩
        · intro x hx
          rcases List.mem_append.mp hx with hx | hx
          · exact List.mem_append_left _ (hsub x hx)
          · exact List.mem_append_right _ hx
        · intro t ht
          obtain ⟨ht1, ht2⟩ := hin t ht
          refine ⟨List.mem_append_left _ ht1, ?_⟩
          intro hmem'
          rcases List.mem_append.mp hmem' with hx | hx
          · exact ht2 hx
          · rw [List.mem_singleton] at hx
            exact hmem (hx ▸ ht1)
  | timer =>
    show SelInv (schedTick s)
    unfold schedTick
    cases hp : s.proc with
    | idle => exact ⟨hnd, hsub, hin⟩
    | running capF capD ph =>
      have hin' := hp ▸ hin
      cases ph with
      | closeWait t =>
        exact selInv_announceDirStep capF capD t s hnd hsub (hin' t rfl)
      | dirWait t =>
        obtain ⟨ht1, ht2⟩ := hin' t rfl
        simp only [startMoveStep]
        split
        · refine ⟨hnd, hsub, ?_⟩
          intro t' ht'
          simp only [arriveStep, inflight] at ht'
          cases ht'
          exact ⟨ht1, ht2⟩
        · refine ⟨hnd, hsub, ?_⟩
          intro t' ht'
          simp only [inflight] at ht'
          cases ht'
          exact ⟨ht1, ht2⟩
      | moveStep t ps =>
        obtain ⟨ht1, ht2⟩ := hin' t rfl
        have harr : ∀ s' : AppState, s'.elevatorQueue = s.elevatorQueue →
            s'.selectedFloors = s.selectedFloors →
            SelInv (arriveStep capF capD t s') := by
          intro s' hq' hs'
          refine ⟨hq' ▸ hnd, ?_, ?_⟩
          · intro x hx
            rw [arriveStep] at hx ⊢
            exact hs' ▸ hsub x (hq' ▸ hx)
          · intro t' ht'
            simp only [arriveStep, inflight] at ht'
            cases ht'
            simp only [arriveStep]
            exact ⟨hs' ▸ ht1, hq' ▸ ht2⟩
        match ps with
        | [] => exact harr s rfl rfl
        | [f] => exact harr _ rfl rfl
        | f :: g :: rest =>
          refine ⟨hnd, hsub, ?_⟩
          intro t' ht'
          simp only [inflight] at ht'
          cases ht'
          exact ⟨ht1, ht2⟩
      | arriveWait t =>
        obtain ⟨ht1, ht2⟩ := hin' t rfl
        refine ⟨hnd, ?_, ?_⟩
        · intro x hx
          have hxt : x ≠ t := fun hxeq => ht2 (hxeq ▸ hx)
          exact (List.mem_erase_of_ne hxt).mpr (hsub x hx)
        · intro t' ht'
          simp [inflight] at ht'
      | settleWait t => exact selInv_loopStep capF capD s hnd hsub

lemma selInv_run (es : List Act) (hnc : ∀ a ∈ es, isCallAct a = false) :
    SelInv (run es) := by
  suffices h : ∀ s, SelInv s → SelInv (es.foldl step s) from
    h initState ⟨List.nodup_nil, by simp [initState], by simp [initState, inflight]⟩
  induction es with
  | nil => exact fun s hs => hs
  | cons a as ih =>
    exact fun s hs =>
      ih (fun b hb => hnc b (List.mem_cons_of_mem a hb)) _
        (selInv_step s a (hnc a (List.mem_cons_self a as)) hs)

/-! ### Helper lemmas shared by the claim theorems -/

lemma invoke_proc_ne_idle (s : AppState) (h : s.proc ≠ .idle) :
    invokeProcessQueue s = s := by
  unfold invokeProcessQueue
  cases hp : s.proc with
  | idle => exact absurd hp h
  | running a b c => rfl

lemma select_noop_of_mem (s : AppState) (f : Floor)
    (h : f ∈ s.selectedFloors) : handleFloorSelect f s = s := by
  simp [handleFloorSelect, h]

lemma procMoving_dirSome (p : Proc) (h : procMoving p = true) :
    procDirSome p = true := by
  cases p with
  | idle => simp [procMoving] at h
  | running a b ph => cases ph <;> simp_all [procMoving, procDirSome]

lemma invoke_callDirPair (s : AppState) (c c' : Option Dir) :
    invokeProcessQueue { s with callDirection := c } =
      { invokeProcessQueue { s with callDirection := c' } with
          callDirection := c } := by
  cases hp : s.proc <;> cases hq : s.elevatorQueue <;>
    cases hd : s.isDoorOpen <;> rfl

lemma schedTick_queue (s : AppState) :
    (schedTick s).elevatorQueue = s.elevatorQueue ∨
      (schedTick s).elevatorQueue = s.elevatorQueue.tail := by
  unfold schedTick
  cases hp : s.proc with
  | idle => exact Or.inl rfl
  | running capF capD ph =>
    cases ph with
    | closeWait t => exact Or.inl rfl
    | dirWait t =>
      simp only [startMoveStep]
      split
      · exact Or.inl rfl
      · exact Or.inl rfl
    | moveStep t ps =>
      match ps with
      | [] => exact Or.inl rfl
      | [f] => exact Or.inl rfl
      | f :: g :: rest => exact Or.inl rfl
    | arriveWait t => exact Or.inl rfl
    | settleWait t =>
      cases hq : s.elevatorQueue with
      | nil => exact Or.inl (by simp [loopStep, hq])
      | cons t' rest =>
        right
        simp only [loopStep, hq]
        cases capD <;> rfl

lemma chain'_le_sandwich {l₁ l₂ l₃ : List Nat} {k : Nat}
    (hc : List.Chain' (· ≤ ·) (l₁ ++ k :: (l₂ ++ k :: l₃))) :
    ∀ x ∈ l₂, x = k := by
  rw [List.chain'_iff_pairwise] at hc
  intro x hx
  obtain ⟨-, h2, -⟩ := List.pairwise_append.mp hc
  rw [List.pairwise_cons] at h2
  have hkx : k ≤ x := h2.1 x (List.mem_append_left _ hx)
  obtain ⟨-, -, hcross⟩ := List.pairwise_append.mp h2.2
  have hxk : x ≤ k := hcross x hx k (List.mem_cons_self k l₃)
  omega

/-! ### Claim theorems -/

/-- C1 (corrected).  The original claim — the queue never holds duplicate
floors whichever insertion operation is used — fails because
`handleCallElevator` performs no dedup check.  Amended: selecting a floor that
is already in the selected set (which, absent outside calls, contains every
queued floor) is a no-op, and along runs that contain no outside calls the
request queue never contains duplicate floor identifiers. -/
theorem C1_select_only_queue_nodup :
    (∀ (s : AppState) (f : Floor), f ∈ s.selectedFloors →
      handleFloorSelect f s = s) ∧
    (∀ es : List Act, (∀ a ∈ es, isCallAct a = false) →
      (run es).elevatorQueue.Nodup) :=
  ⟨select_noop_of_mem, fun es h => (selInv_run es h).1⟩

/-- C1 counterexample: three hall calls from F3 while the cabin is at F1 leave
the queue with two F3 entries — the queue does contain duplicates. -/
theorem C1_counterexample_call_duplicates :
    ¬ ((run [.call .F3 .up, .call .F3 .up,
        .call .F3 .up]).elevatorQueue.Nodup) := by
  decide

/-- C1 witness: the amended theorem applied at concrete inputs. -/
theorem C1_select_only_queue_nodup_witness :
    handleFloorSelect .F3 (run [.select .F3]) = run [.select .F3] ∧
    (run [.select .F3, .select .F5]).elevatorQueue.Nodup :=
  ⟨C1_select_only_queue_nodup.1 _ .F3 (by decide),
   C1_select_only_queue_nodup.2 [.select .F3, .select .F5] (by decide)⟩

/-- C2 (code bug).  Select F3 from F1, then select F1 while the door is
closing.  The second trip plans from the *captured* `currentFloor` (still F1),
computes an empty pass sequence, and emits `floor_arrived(F1)` while the cabin
is still physically at F3: `currentFloor ≠ target` when the arrival event of
trip 2 fires, contradicting the claim that each trip plans from the cabin's
current floor at the start of that trip and ends with `currentFloor = target`. -/
theorem C2_stale_floor_strands_cabin :
    (run [.select .F3, .select .F1, .timer, .timer, .timer, .timer, .timer,
        .timer, .timer, .timer]).currentFloor = Floor.F3 ∧
    (run [.select .F3, .select .F1, .timer, .timer, .timer, .timer, .timer,
        .timer, .timer, .timer]).trace.getLast? =
      some (.sched 2 (.floor_arrived .F1)) := by
  decide

/-- C3 (code bug).  Select F3 (door closes, trip starts), press the door-open
button during the close-settle await (`isMoving` is still false, so the guard
admits it), and let the scheduler proceed: the cabin starts moving with the
door open, refuting `doorOpen = true → moving = false`. -/
theorem C3_door_open_while_moving :
    (run [.select .F3, .doorOpenBtn, .timer, .timer]).isDoorOpen = true ∧
    (run [.select .F3, .doorOpenBtn, .timer, .timer]).isMoving = true := by
  decide

/-- C4 (confirmed).  The `isProcessing` guard makes the scheduler single
flight: invoking either enqueue operation while a run is active never changes
the scheduler continuation, and in every reachable trace the trip numbers of
scheduler-emitted events are contiguous — between two events of trip `k`
(e.g. its `door_closed` and its `door_opened`) every scheduler event belongs
to trip `k`. -/
theorem C4_single_flight :
    (∀ (s : AppState) (f : Floor) (d : Dir), s.proc ≠ .idle →
      (handleFloorSelect f s).proc = s.proc ∧
      (handleCallElevator f d s).proc = s.proc) ∧
    (∀ (es : List Act) (k : Nat) (l₁ l₂ l₃ : List Nat),
      tripIds (run es).trace = l₁ ++ k :: (l₂ ++ k :: l₃) →
      ∀ x ∈ l₂, x = k) := by
  constructor
  · intro s f d hne
    constructor
    · simp only [handleFloorSelect]
      split
      · rfl
      · split
        · rfl
        · rw [invoke_proc_ne_idle
            { s with selectedFloors := s.selectedFloors ++ [f],
                     elevatorQueue := s.elevatorQueue ++ [f] } hne]
    · simp only [handleCallElevator]
      split
      · rw [invoke_proc_ne_idle
          { s with callDirection := some d,
                   elevatorQueue := f :: s.elevatorQueue } hne]
      · rfl
  · intro es k l₁ l₂ l₃ heq
    have hc := (globalInv_run es).2.2.1
    rw [heq] at hc
    exact chain'_le_sandwich hc

/-- C4 witness: the guard and the contiguity applied at concrete inputs
(the six events of the single trip of `select F5` all carry trip number 1). -/
theorem C4_single_flight_witness :
    (handleFloorSelect .F5 (run [.select .F3])).proc =
      (run [.select .F3]).proc ∧ (1 : Nat) = 1 :=
  ⟨(C4_single_flight.1 (run [.select .F3]) .F5 .up (by decide)).1,
   C4_single_flight.2 [.select .F3, .timer, .timer, .timer, .timer, .timer]
     1 [] [1, 1, 1, 1] [] (by decide) 1 (by decide)⟩

/-- C5 (corrected).  The original claim says the call is a no-op exactly when
the cabin is at the caller's floor AND idle with door open; the code never
checks the door.  Amended: `handleCallElevator` changes only `callDirection`
exactly when the cabin is at the caller's floor and not moving (door state
irrelevant); otherwise it prepends the caller's floor and, if the scheduler is
not processing, starts it (the prepended floor is dequeued as the new target);
and the call's direction argument affects only the displayed `callDirection`,
never the queue or the scheduler. -/
theorem C5_routeCall_noop_condition : ∀ (s : AppState) (f : Floor) (d : Dir),
    ((s.currentFloor = f ∧ s.isMoving = false) →
      handleCallElevator f d s = { s with callDirection := some d }) ∧
    (¬(s.currentFloor = f ∧ s.isMoving = false) → s.proc ≠ .idle →
      handleCallElevator f d s =
        { s with callDirection := some d,
                 elevatorQueue := f :: s.elevatorQueue }) ∧
    (¬(s.currentFloor = f ∧ s.isMoving = false) → s.proc = .idle →
      (handleCallElevator f d s).targetFloor = some f ∧
      (handleCallElevator f d s).elevatorQueue = s.elevatorQueue ∧
      (handleCallElevator f d s).proc ≠ .idle) ∧
    (∀ d' : Dir, handleCallElevator f d s =
      { handleCallElevator f d' s with callDirection := some d }) := by
  intro s f d
  have hcond : ∀ h : ¬(s.currentFloor = f ∧ s.isMoving = false),
      s.currentFloor ≠ f ∨ s.isMoving = true := by
    intro h
    by_cases hc : s.currentFloor = f
    · cases hmv : s.isMoving
      · exact absurd ⟨hc, hmv⟩ h
      · exact Or.inr rfl
    · exact Or.inl hc
  refine ⟨?_, ?_, ?_, ?_⟩
  · rintro ⟨h1, h2⟩
    simp only [handleCallElevator]
    rw [if_neg]
    simp [h1, h2]
  · intro hno hproc
    simp only [handleCallElevator]
    rw [if_pos (hcond hno),
      invoke_proc_ne_idle
        { s with callDirection := some d, elevatorQueue := f :: s.elevatorQueue }
        hproc]
  · intro hno hproc
    simp only [handleCallElevator]
    rw [if_pos (hcond hno)]
    simp only [invokeProcessQueue, hproc, loopStep]
    rw [if_neg (List.cons_ne_nil f s.elevatorQueue)]
    simp only [startTrip, announceDirStep]
    cases hd : s.isDoorOpen <;> exact ⟨rfl, rfl, by simp⟩
  · intro d'
    simp only [handleCallElevator]
    by_cases hc : s.currentFloor ≠ f ∨ s.isMoving = true
    · rw [if_pos hc, if_pos hc]
      exact invoke_callDirPair { s with elevatorQueue := f :: s.elevatorQueue }
        (some d) (some d')
    · rw [if_neg hc, if_neg hc]

/-- C5 counterexample: cabin idle at F1 with the door *closed*; the claim
requires `callFromOutside(F1, Up)` to enqueue (no-op only when the door is
open), but the code leaves everything unchanged except `callDirection`. -/
theorem C5_counterexample_door_closed_call :
    (run [.doorCloseBtn]).currentFloor = Floor.F1 ∧
    (run [.doorCloseBtn]).isDoorOpen = false ∧
    (run [.doorCloseBtn]).isMoving = false ∧
    (run [.doorCloseBtn]).proc = .idle ∧
    handleCallElevator .F1 .up (run [.doorCloseBtn]) =
      { run [.doorCloseBtn] with callDirection := some .up } := by
  decide

/-- C5 witness: the amended theorem applied at concrete inputs. -/
theorem C5_routeCall_noop_condition_witness :
    handleCallElevator .F1 .up initState =
      { initState with callDirection := some .up } ∧
    (handleCallElevator .F3 .up initState).targetFloor = some .F3 ∧
    handleCallElevator .F3 .up initState =
      { handleCallElevator .F3 .down initState with callDirection := some .up } :=
  ⟨(C5_routeCall_noop_condition initState .F1 .up).1 ⟨rfl, rfl⟩,
   ((C5_routeCall_noop_condition initState .F3 .up).2.2.1 (by decide) rfl).1,
   (C5_routeCall_noop_condition initState .F3 .up).2.2.2 .down⟩

/-- C6 (confirmed).  For every pair of distinct registry floors the planner's
direction is Up iff the target's index is greater, the pass sequence equals
the spec's description (floors strictly between the endpoints plus the target,
in travel order — `planSpec`), its length is the index distance, its last
element is the target, and adjacent floors give a one-element sequence. -/
theorem C6_plan_refines_spec : ∀ a b : Floor, a ≠ b →
    plan a b = planSpec a b ∧
    ((plan a b).1 = Dir.up ↔ getFloorIndex a < getFloorIndex b) ∧
    ((plan a b).2).length =
      max (getFloorIndex a) (getFloorIndex b) -
        min (getFloorIndex a) (getFloorIndex b) ∧
    ((plan a b).2).getLast? = some b ∧
    ((getFloorIndex b = getFloorIndex a + 1 ∨
        getFloorIndex a = getFloorIndex b + 1) →
      ((plan a b).2).length = 1) := by
  decide

/-- C6 witness: the theorem applied at concrete floor pairs. -/
theorem C6_plan_refines_spec_witness :
    plan .F1 .F3 = planSpec .F1 .F3 ∧
    ((plan .F1 .F4).2).length =
      max (getFloorIndex .F1) (getFloorIndex .F4) -
        min (getFloorIndex .F1) (getFloorIndex .F4) :=
  ⟨(C6_plan_refines_spec .F1 .F3 (by decide)).1,
   (C6_plan_refines_spec .F1 .F4 (by decide)).2.2.1⟩

/-- C7 (corrected).  The original claim says a same-floor request never
reaches direction computation and emits no direction announcement.  In the
code only the idle-with-door-open case is filtered (in `handleFloorSelect`);
with the door closed the request is enqueued, the trip announces direction
`down` (indices are equal, so the ternary falls to `'down'`), performs no
movement, and cycles the door open.  Amended accordingly: the filter applies
exactly when the cabin is idle at that floor with the door open; with the
door closed the request produces a direction announcement and no movement,
and the door is cycled open. -/
theorem C7_same_floor_request : ∀ (s : AppState) (f : Floor),
    (s.currentFloor = f → s.isMoving = false → s.isDoorOpen = true →
      handleFloorSelect f s = s) ∧
    (s.proc = .idle → s.elevatorQueue = [] → s.currentFloor = f →
      f ∉ s.selectedFloors → s.isDoorOpen = false →
      (handleFloorSelect f s).direction = some .down ∧
      (schedTick (schedTick (handleFloorSelect f s))).currentFloor = f ∧
      (schedTick (schedTick (handleFloorSelect f s))).isDoorOpen = true ∧
      (schedTick (schedTick (handleFloorSelect f s))).isMoving = false ∧
      (schedTick (schedTick (handleFloorSelect f s))).trace =
        s.trace ++ [.sched (s.tripCount + 1) (.direction_changed .down),
          .sched (s.tripCount + 1) (.floor_arrived f),
          .sched (s.tripCount + 1) .door_opened]) := by
  intro s f
  constructor
  · intro h1 h2 h3
    unfold handleFloorSelect
    rw [if_pos ⟨h1.symm, h2, h3⟩]
  · intro hp hq hcf hsel hdoor
    subst hcf
    have hplan1 : (plan s.currentFloor s.currentFloor).1 = Dir.down := by
      simp [plan]
    have hplan2 : (plan s.currentFloor s.currentFloor).2 = [] := by
      simp [plan, jsSlice]
    have hselstep : handleFloorSelect s.currentFloor s =
        announceDirStep s.currentFloor s.isDoorOpen s.currentFloor
          { s with
              selectedFloors := s.selectedFloors ++ [s.currentFloor],
              elevatorQueue := [],
              targetFloor := some s.currentFloor,
              tripCount := s.tripCount + 1 } := by
      simp only [handleFloorSelect, hdoor]
      rw [if_neg (by simp), if_neg hsel]
      simp only [invokeProcessQueue, hp, hq]
      rw [if_neg (by simp)]
      simp only [loopStep, List.nil_append, startTrip, hdoor]
      rw [if_neg (by simp [hdoor])]
    rw [hselstep]
    simp [announceDirStep, hplan1, schedTick, startMoveStep, hplan2, arriveStep]

/-- C7 counterexample: close the door, then select the current floor F1 —
direction computation is reached and `direction_changed(down)` is emitted,
contradicting "never reaches direction computation / emits no direction
announcement". -/
theorem C7_counterexample_direction_announced :
    (handleFloorSelect .F1 (run [.doorCloseBtn])).direction = some .down ∧
    TraceEntry.sched 1 (Ev.direction_changed .down) ∈
      (handleFloorSelect .F1 (run [.doorCloseBtn])).trace := by
  decide

/-- C7 witness: the amended theorem applied at concrete inputs. -/
theorem C7_same_floor_request_witness :
    handleFloorSelect .F1 initState = initState ∧
    (schedTick (schedTick (handleFloorSelect .F1
      (run [.doorCloseBtn])))).isDoorOpen = true :=
  ⟨(C7_same_floor_request initState .F1).1 rfl rfl rfl,
   ((C7_same_floor_request (run [.doorCloseBtn]) .F1).2 (by decide) (by decide)
      (by decide) (by decide) (by decide)).2.2.1⟩

/-- C8 (corrected).  The original claim — `direction` is `Some` only while
`moving = true` — fails: the code sets the direction and announces it a full
pre-move interval before `setIsMoving(true)`.  Amended: the implication holds
in the converse direction — in every reachable state, `moving = true` implies
`direction` holds a value (`direction` is `Some` exactly during the
direction-announce and movement phases). -/
theorem C8_moving_implies_direction (es : List Act)
    (h : (run es).isMoving = true) : (run es).direction.isSome = true := by
  have hi := globalInv_run es
  have hm : procMoving (run es).proc = true := by rw [← hi.1]; exact h
  rw [hi.2.1]
  exact procMoving_dirSome _ hm

/-- C8 counterexample: after `select F3` and the door-close settle, the
direction is already `some up` while `isMoving` is still false. -/
theorem C8_counterexample_direction_while_stopped :
    (run [.select .F3, .timer]).isMoving = false ∧
    (run [.select .F3, .timer]).direction = some .up := by
  decide

/-- C8 witness: the amended theorem applied at a reachable moving state. -/
theorem C8_moving_implies_direction_witness :
    (run [.select .F3, .timer, .timer]).direction.isSome = true :=
  C8_moving_implies_direction [.select .F3, .timer, .timer] (by decide)

/-- C9 (corrected).  The original claim says re-selecting the in-flight floor
creates a fresh queue entry.  In the code the floor stays in `selectedFloors`
until the door-open step, so the re-request is silently dropped.  Amended:
selecting any floor still in the selected set (in particular the in-flight
target before its door-open step) is a no-op, and the scheduler itself never
re-inserts into the queue — a scheduler step only leaves the queue unchanged
or removes its head. -/
theorem C9_reselect_noop :
    (∀ (s : AppState) (f : Floor), f ∈ s.selectedFloors →
      handleFloorSelect f s = s) ∧
    (∀ s : AppState, (schedTick s).elevatorQueue = s.elevatorQueue ∨
      (schedTick s).elevatorQueue = s.elevatorQueue.tail) :=
  ⟨select_noop_of_mem, schedTick_queue⟩

/-- C9 counterexample: F3 has been dequeued as the active target
(`targetFloor = some F3`, queue empty); re-selecting F3 changes nothing —
no fresh queue entry is created, contradicting the claim. -/
theorem C9_counterexample_reselect_dropped :
    run [.select .F3, .select .F3] = run [.select .F3] ∧
    (run [.select .F3, .select .F3]).elevatorQueue = [] ∧
    (run [.select .F3]).targetFloor = some .F3 := by
  decide

/-- C9 witness: the amended theorem applied at concrete inputs. -/
theorem C9_reselect_noop_witness :
    handleFloorSelect .F3 (run [.select .F3]) = run [.select .F3] ∧
    ((schedTick (run [.select .F3])).elevatorQueue =
        (run [.select .F3]).elevatorQueue ∨
      (schedTick (run [.select .F3])).elevatorQueue =
        (run [.select .F3]).elevatorQueue.tail) :=
  ⟨C9_reselect_noop.1 _ .F3 (by decide), C9_reselect_noop.2 _⟩

/-- C10 (confirmed).  The door buttons modify at most `isDoorOpen` (besides
emitting their cue event): `currentFloor`, `targetFloor`, `direction`,
`isMoving`, the queue, the selected set and the scheduler continuation are
unchanged, and while `isMoving = true` both handlers change nothing at all. -/
theorem C10_door_buttons_frame : ∀ s : AppState,
    ((handleDoorOpen s).currentFloor = s.currentFloor ∧
     (handleDoorOpen s).targetFloor = s.targetFloor ∧
     (handleDoorOpen s).direction = s.direction ∧
     (handleDoorOpen s).isMoving = s.isMoving ∧
     (handleDoorOpen s).elevatorQueue = s.elevatorQueue ∧
     (handleDoorOpen s).selectedFloors = s.selectedFloors ∧
     (handleDoorOpen s).proc = s.proc) ∧
    ((handleDoorClose s).currentFloor = s.currentFloor ∧
     (handleDoorClose s).targetFloor = s.targetFloor ∧
     (handleDoorClose s).direction = s.direction ∧
     (handleDoorClose s).isMoving = s.isMoving ∧
     (handleDoorClose s).elevatorQueue = s.elevatorQueue ∧
     (handleDoorClose s).selectedFloors = s.selectedFloors ∧
     (handleDoorClose s).proc = s.proc) ∧
    (s.isMoving = true → handleDoorOpen s = s ∧ handleDoorClose s = s) := by
  intro s
  unfold handleDoorOpen handleDoorClose
  by_cases hm : s.isMoving = false
  · rw [if_pos hm, if_pos hm]
    exact ⟨⟨rfl, rfl, rfl, rfl, rfl, rfl, rfl⟩,
      ⟨rfl, rfl, rfl, rfl, rfl, rfl, rfl⟩,
      fun h => absurd h (by simp [hm])⟩
  · rw [if_neg hm, if_neg hm]
    exact ⟨⟨rfl, rfl, rfl, rfl, rfl, rfl, rfl⟩,
      ⟨rfl, rfl, rfl, rfl, rfl, rfl, rfl⟩,
      fun h => ⟨rfl, rfl⟩⟩

/-- C10 witness: the frame theorem applied at a reachable moving state. -/
theorem C10_door_buttons_frame_witness :
    handleDoorOpen (run [.select .F3, .timer, .timer]) =
        run [.select .F3, .timer, .timer] ∧
    handleDoorClose (run [.select .F3, .timer, .timer]) =
      run [.select .F3, .timer, .timer] :=
  (C10_door_buttons_frame (run [.select .F3, .timer, .timer])).2.2 (by decide)
